import Mathlib

/-!
Shallow embedding of the crypto portfolio tracker.

Sources embedded here:
- src/src/lib/cryptoApi.ts : symbol registry, search, spot price client
- src/unnamed/part_001 (AddPurchaseForm) : the add purchase workflow
- src/unnamed/part_002 (PortfolioList) : the valuation pass, the totals,
  the delete workflow, and the 30 second interval effect.

Numbers are modelled as rationals; JavaScript truthiness on numeric and
nullable fields is modelled explicitly (null/undefined and 0 are falsy).
-/

/-- Entry of the static symbol table SUPPORTED_CRYPTOS in cryptoApi.ts. -/
structure CryptoEntry where
  symbol : String
  id : String
  name : String
deriving DecidableEq, Repr

/-- Embedding of the SUPPORTED_CRYPTOS table of cryptoApi.ts. -/
def SUPPORTED_CRYPTOS : List CryptoEntry := [
  ⟨"BTC", "bitcoin", "Bitcoin"⟩,
  ⟨"ETH", "ethereum", "Ethereum"⟩,
  ⟨"USDT", "tether", "Tether"⟩,
  ⟨"BNB", "binancecoin", "BNB"⟩,
  ⟨"SOL", "solana", "Solana"⟩,
  ⟨"XRP", "ripple", "XRP"⟩,
  ⟨"USDC", "usd-coin", "USD Coin"⟩,
  ⟨"ADA", "cardano", "Cardano"⟩,
  ⟨"DOGE", "dogecoin", "Dogecoin"⟩,
  ⟨"TRX", "tron", "TRON"⟩,
  ⟨"AVAX", "avalanche-2", "Avalanche"⟩,
  ⟨"DOT", "polkadot", "Polkadot"⟩,
  ⟨"MATIC", "matic-network", "Polygon"⟩,
  ⟨"LTC", "litecoin", "Litecoin"⟩,
  ⟨"LINK", "chainlink", "Chainlink"⟩,
  ⟨"ATOM", "cosmos", "Cosmos"⟩,
  ⟨"UNI", "uniswap", "Uniswap"⟩,
  ⟨"XLM", "stellar", "Stellar"⟩,
  ⟨"ALGO", "algorand", "Algorand"⟩,
  ⟨"FIL", "filecoin", "Filecoin"⟩,
  ⟨"SUI", "sui", "Sui"⟩,
  ⟨"APT", "aptos", "Aptos"⟩,
  ⟨"ARB", "arbitrum", "Arbitrum"⟩,
  ⟨"OP", "optimism", "Optimism"⟩,
  ⟨"INJ", "injective-protocol", "Injective"⟩,
  ⟨"TIA", "celestia", "Celestia"⟩,
  ⟨"SEI", "sei-network", "Sei"⟩,
  ⟨"STX", "blockstack", "Stacks"⟩,
  ⟨"NEAR", "near", "NEAR Protocol"⟩,
  ⟨"ICP", "internet-computer", "Internet Computer"⟩,
  ⟨"IOTEX", "iotex", "IoTeX"⟩,
  ⟨"HBAR", "hedera-hashgraph", "Hedera"⟩,
  ⟨"VET", "vechain", "VeChain"⟩,
  ⟨"FTM", "fantom", "Fantom"⟩,
  ⟨"SAND", "the-sandbox", "The Sandbox"⟩,
  ⟨"MANA", "decentraland", "Decentraland"⟩,
  ⟨"AXS", "axie-infinity", "Axie Infinity"⟩,
  ⟨"GALA", "gala", "Gala"⟩,
  ⟨"THETA", "theta-token", "Theta Network"⟩,
  ⟨"XTZ", "tezos", "Tezos"⟩]

/-- JavaScript toUpperCase restricted to ASCII, written as a map over the
character list; on the ASCII data of this repository it agrees with
String.toUpper, whose iterator based definition does not reduce. -/
def jsToUpper (s : String) : String := String.mk (s.data.map Char.toUpper)

/-- JavaScript toLowerCase restricted to ASCII, see jsToUpper. -/
def jsToLower (s : String) : String := String.mk (s.data.map Char.toLower)

/-- Embedding of getCoinId: case insensitive table lookup with a
lower-cased fallback for unregistered symbols. -/
def getCoinId (symbol : String) : String :=
  match SUPPORTED_CRYPTOS.find? (fun c => jsToUpper c.symbol == jsToUpper symbol) with
  | some c => c.id
  | none => jsToLower symbol

/-- Embedding of validateSymbol: case insensitive exact match against the
static table. -/
def validateSymbol (symbol : String) : Bool :=
  SUPPORTED_CRYPTOS.any (fun c => jsToUpper c.symbol == jsToUpper symbol)

/-- JavaScript String.includes, modelled as substring containment on the
character lists. -/
def jsIncludes (hay needle : String) : Bool :=
  decide (needle.toList <:+: hay.toList)

/-- Embedding of searchCryptos: empty query yields the empty list, otherwise
a case insensitive substring filter on symbol or name, cut to 5 entries. -/
def searchCryptos (query : String) : List CryptoEntry :=
  if query = "" then []
  else
    (SUPPORTED_CRYPTOS.filter (fun crypto =>
      jsIncludes (jsToUpper crypto.symbol) (jsToUpper query) ||
      jsIncludes (jsToUpper crypto.name) (jsToUpper query))).take 5

/-- Coin object of the spot price response body: the usd field may be
present with a value or absent. -/
structure CoinData where
  usd : Option ℚ
deriving DecidableEq, Repr

/-- Outcome of the spot price HTTP request: failure covers network errors and
non success statuses, ok carries the parsed JSON body as a finite lookup from
coin ids to coin objects. -/
inductive SpotResponse where
  | failure
  | ok (body : String → Option CoinData)

/-- Embedding of getCurrentPrice of cryptoApi.ts, with the network outcome
made explicit. The JavaScript guard rejects a missing coin key, a missing
usd field, and a falsy usd value, that is the value 0. -/
def getCurrentPrice (symbol : String) (resp : SpotResponse) : Except String ℚ :=
  match resp with
  | .failure => .error "request failed"
  | .ok body =>
    match body (getCoinId symbol) with
    | none => .error ("Price not found for " ++ symbol)
    | some cd =>
      match cd.usd with
      | none => .error ("Price not found for " ++ symbol)
      | some v =>
        if v = 0 then .error ("Price not found for " ++ symbol) else .ok v

/-- Boolean success test for the Except results of the oracle client. -/
def exceptIsOk : Except String ℚ → Bool
  | .ok _ => true
  | .error _ => false

/-- Embedding of the CryptoPurchase row of supabase.ts that the claims use:
purchase_price_usd is nullable. The created_at and updated_at columns play
no role in any claim and are omitted. -/
structure CryptoPurchase where
  id : String
  symbol : String
  purchase_date : String
  amount : ℚ
  purchase_price_usd : Option ℚ
deriving DecidableEq, Repr

/-- Embedding of the PurchaseWithPrice interface of PortfolioList: a
CryptoPurchase together with the optional derived fields. -/
structure PurchaseWithPrice extends CryptoPurchase where
  currentPrice : Option ℚ := none
  profitLoss : Option ℚ := none
  profitLossPercent : Option ℚ := none
deriving DecidableEq, Repr

/-- JavaScript truthiness of a nullable number: null, undefined and 0 are
falsy, every other number is truthy. -/
def truthy : Option ℚ → Bool
  | some c => c != 0
  | none => false

/-- Per symbol fetch wrapper of fetchCurrentPrices: the catch block turns a
failed getCurrentPrice call into a null price for that symbol only. -/
def fetchPrice (oracle : String → SpotResponse) (symbol : String) : Option ℚ :=
  match getCurrentPrice symbol (oracle symbol) with
  | .ok p => some p
  | .error _ => none

/-- Distinct symbols of the input records, as built by the Set in
fetchCurrentPrices. -/
def uniqueSymbols (purchasesData : List PurchaseWithPrice) : List String :=
  (purchasesData.map (fun p => p.symbol)).dedup

/-- Association list behind the priceMap of fetchCurrentPrices: each distinct
symbol paired with its resolved price or null. -/
def priceEntries (oracle : String → SpotResponse)
    (purchasesData : List PurchaseWithPrice) : List (String × Option ℚ) :=
  (uniqueSymbols purchasesData).map (fun s => (s, fetchPrice oracle s))

/-- Map.get on the price entries: undefined when the key is absent. -/
def lookupPrice (entries : List (String × Option ℚ)) (s : String) :
    Option (Option ℚ) :=
  (entries.find? (fun e => e.1 == s)).map (fun e => e.2)

/-- Body of the map in fetchCurrentPrices: when both the looked up current
price and the stored purchase price are truthy the derived fields are set,
otherwise the record is returned unchanged. -/
def valuePosition (cp : Option ℚ) (purchase : PurchaseWithPrice) :
    PurchaseWithPrice :=
  match cp, purchase.purchase_price_usd with
  | some c, some pp =>
    if c = 0 ∨ pp = 0 then purchase
    else
      { purchase with
        currentPrice := some c,
        profitLoss := some ((c - pp) * purchase.amount),
        profitLossPercent := some ((c - pp) / pp * 100) }
  | _, _ => purchase

/-- Embedding of fetchCurrentPrices of PortfolioList: fetch every distinct
symbol (each failure caught locally), build the price map, and rebuild the
displayed list by the per record map. -/
def fetchCurrentPrices (oracle : String → SpotResponse)
    (purchasesData : List PurchaseWithPrice) : List PurchaseWithPrice :=
  purchasesData.map (fun purchase =>
    valuePosition ((lookupPrice (priceEntries oracle purchasesData)
      purchase.symbol).join) purchase)

/-- Shared shape of the two reduce calls of PortfolioList: sum the product
of a selected truthy price and the amount. -/
def sumKnown (get : PurchaseWithPrice → Option ℚ)
    (purchases : List PurchaseWithPrice) : ℚ :=
  purchases.foldl (fun sum p =>
    if truthy (get p) then sum + ((get p).getD 0) * p.amount else sum) 0

/-- Embedding of the totalValue reduce of PortfolioList. -/
def totalValue (purchases : List PurchaseWithPrice) : ℚ :=
  sumKnown (fun p => p.currentPrice) purchases

/-- Embedding of the totalCost reduce of PortfolioList. -/
def totalCost (purchases : List PurchaseWithPrice) : ℚ :=
  sumKnown (fun p => p.purchase_price_usd) purchases

/-- Embedding of totalProfitLoss of PortfolioList. -/
def totalProfitLoss (purchases : List PurchaseWithPrice) : ℚ :=
  totalValue purchases - totalCost purchases

/-- Embedding of totalProfitLossPercent of PortfolioList, with the
totalCost strictly positive guard of the source. -/
def totalProfitLossPercent (purchases : List PurchaseWithPrice) : ℚ :=
  if totalCost purchases > 0 then
    totalProfitLoss purchases / totalCost purchases * 100
  else 0

/-- Sum written the way the spec states it: positions whose selected price
is unknown are filtered out first, the rest contribute price times amount. -/
def knownSum (get : PurchaseWithPrice → Option ℚ)
    (purchases : List PurchaseWithPrice) : ℚ :=
  ((purchases.filter (fun p => truthy (get p))).map
    (fun p => ((get p).getD 0) * p.amount)).sum

/-- Row handed to the record store by the add purchase workflow. -/
structure InsertRow where
  symbol : String
  amount : ℚ
  purchase_price_usd : ℚ
deriving DecidableEq, Repr

/-- Observable outcome of one handleSubmit run: how many oracle and store
calls were made, what was persisted, whether the form was cleared and the
refresh signal raised, and the displayed error if any. -/
structure SubmitOutcome where
  oracleCalls : Nat
  storeCalls : Nat
  persisted : Option InsertRow
  formCleared : Bool
  refreshRaised : Bool
  errorMsg : Option String
deriving DecidableEq, Repr

/-- Error text of the unsupported symbol branch of handleSubmit. -/
def invalidSymbolMsg (s : String) : String :=
  s ++ " is not a supported cryptocurrency. Please select from the suggestions."

/-- Embedding of handleSubmit of AddPurchaseForm. The outcome of the
historical price fetch and of the store insert are passed in explicitly;
the guard, the try block and the catch block are translated branch for
branch. -/
def handleSubmit (symbol : String) (amount : ℚ)
    (hist : Except String ℚ) (db : Option String) : SubmitOutcome :=
  if validateSymbol symbol = false then
    ⟨0, 0, none, false, false, some (invalidSymbolMsg symbol)⟩
  else
    match hist with
    | .error e => ⟨1, 0, none, false, false, some e⟩
    | .ok price =>
      match db with
      | some e => ⟨1, 1, none, false, false, some e⟩
      | none => ⟨1, 1, some ⟨jsToUpper symbol, amount, price⟩, true, true, none⟩

/-- Embedding of handleDelete of PortfolioList: result is the new displayed
list and the alert message if any. Unconfirmed or failed deletes leave the
list untouched; a successful delete filters the id out in memory. -/
def handleDelete (confirmed : Bool) (deleteResult : Option String)
    (purchases : List PurchaseWithPrice) (id : String) :
    List PurchaseWithPrice × Option String :=
  if confirmed = false then (purchases, none)
  else
    match deleteResult with
    | some e => (purchases, some e)
    | none => (purchases.filter (fun p => p.id != id), none)

/-- State of the interval effect of PortfolioList: the set of interval
timers currently armed in the browser, the next fresh timer id, the deps
value of the last effect run, and the timer the registered cleanup would
clear. -/
structure SchedState where
  timers : List Nat
  nextId : Nat
  lastLen : Option Nat
  cleanup : Option Nat
deriving DecidableEq, Repr

/-- State before the first render: no timer armed, no effect run yet. -/
def initSched : SchedState := ⟨[], 0, none, none⟩

/-- One render with purchases value ps, under the React effect protocol for
the deps array holding purchases.length: if the deps are unchanged nothing
runs; otherwise the previous cleanup clears its timer, then the effect body
either returns early on an empty list or arms a fresh interval. -/
def schedStep (s : SchedState) (ps : List String) : SchedState :=
  if s.lastLen = some ps.length then s
  else
    let timers := match s.cleanup with
      | some i => s.timers.erase i
      | none => s.timers
    if ps.length = 0 then ⟨timers, s.nextId, some ps.length, none⟩
    else ⟨timers ++ [s.nextId], s.nextId + 1, some ps.length, some s.nextId⟩

/-- Run of the interval effect over a sequence of rendered purchases
values, starting from the pristine state. -/
def schedRun (events : List (List String)) : SchedState :=
  events.foldl schedStep initSched

/-- Lookup into the association list built by mapping a function over the
key list finds the pair of the key. -/
theorem find_key (f : String → Option ℚ) :
    ∀ (L : List String) (s : String), s ∈ L →
      (L.map (fun t => (t, f t))).find? (fun e => e.1 == s) = some (s, f s) := by
  intro L
  induction L with
  | nil => intro s hs; cases hs
  | cons t ts ih =>
    intro s hs
    by_cases h : t = s
    · subst h
      simp
    · have hs2 : s ∈ ts := by
        rcases List.mem_cons.mp hs with h1 | h1
        · exact absurd h1.symm h
        · exact h1
      rw [List.map_cons, List.find?_cons_of_neg _ (by simpa using h)]
      exact ih s hs2

/-- The priceMap of a valuation pass answers every symbol of the input
records with exactly the outcome of the fetch outcome of that symbol itself. -/
theorem lookupPrice_mem (oracle : String → SpotResponse)
    (ps : List PurchaseWithPrice) (p : PurchaseWithPrice) (hp : p ∈ ps) :
    lookupPrice (priceEntries oracle ps) p.symbol
      = some (fetchPrice oracle p.symbol) := by
  unfold lookupPrice priceEntries
  rw [find_key]
  · rfl
  · exact (List.mem_dedup).mpr (List.mem_map_of_mem _ hp)

/-- Pointwise form of the valuation pass: each output record is computed
from its own input record and the outcome of the fetch outcome of its own symbol. -/
theorem fetchCurrentPrices_eq_map (oracle : String → SpotResponse)
    (ps : List PurchaseWithPrice) :
    fetchCurrentPrices oracle ps
      = ps.map (fun p => valuePosition (fetchPrice oracle p.symbol) p) := by
  unfold fetchCurrentPrices
  apply List.map_congr_left
  intro p hp
  rw [lookupPrice_mem oracle ps p hp]
  rfl

/-- A record whose looked up price is null passes through unchanged. -/
theorem valuePosition_none (p : PurchaseWithPrice) : valuePosition none p = p := by
  unfold valuePosition
  rcases h : p.purchase_price_usd with _ | pp <;> rfl

/-- The reduce of the source equals the filtered sum, for any start value. -/
theorem sumKnown_go (get : PurchaseWithPrice → Option ℚ) :
    ∀ (ps : List PurchaseWithPrice) (init : ℚ),
      ps.foldl (fun sum p =>
          if truthy (get p) then sum + ((get p).getD 0) * p.amount else sum) init
        = init + knownSum get ps := by
  intro ps
  induction ps with
  | nil => intro init; simp [knownSum]
  | cons p ps ih =>
    intro init
    by_cases h : truthy (get p)
    · simp only [List.foldl_cons, h, if_true, ih, knownSum, List.filter_cons,
        List.map_cons, List.sum_cons]
      ring
    · simp only [List.foldl_cons, h, if_false, ih, knownSum, List.filter_cons,
        Bool.false_eq_true, if_neg]

/-- The reduce of the source equals the filtered sum. -/
theorem sumKnown_eq (get : PurchaseWithPrice → Option ℚ)
    (ps : List PurchaseWithPrice) : sumKnown get ps = knownSum get ps := by
  unfold sumKnown
  rw [sumKnown_go]
  ring

/-- The filtered sum is nonnegative when amounts are positive and known
selected prices are nonnegative. -/
theorem knownSum_nonneg (get : PurchaseWithPrice → Option ℚ)
    (ps : List PurchaseWithPrice)
    (ha : ∀ p ∈ ps, 0 < p.amount)
    (hg : ∀ p ∈ ps, ∀ v, get p = some v → 0 ≤ v) :
    0 ≤ knownSum get ps := by
  induction ps with
  | nil => simp [knownSum]
  | cons p ps ih =>
    have ih2 := ih (fun q hq => ha q (List.mem_cons_of_mem _ hq))
      (fun q hq => hg q (List.mem_cons_of_mem _ hq))
    by_cases h : truthy (get p)
    · rcases hv : get p with _ | v
      · rw [hv] at h; simp [truthy] at h
      · have hv0 : 0 ≤ v := hg p (List.mem_cons_self _ _) v hv
        have hvne : v ≠ 0 := by
          rw [hv] at h; simpa [truthy] using h
        have hvpos : 0 < v := lt_of_le_of_ne hv0 (Ne.symm hvne)
        have hterm : 0 < ((get p).getD 0) * p.amount := by
          rw [hv]
          exact mul_pos hvpos (ha p (List.mem_cons_self _ _))
        simp only [knownSum, List.filter_cons, h, if_true, List.map_cons,
          List.sum_cons]
        have := add_le_add (le_of_lt hterm) ih2
        simpa [knownSum] using this
    · simp only [knownSum, List.filter_cons, h, Bool.false_eq_true, if_neg]
      simpa [knownSum] using ih2

/-- Invariant of the interval effect: the armed timers are exactly the one
the registered cleanup would clear, and after a run over an empty record
set no cleanup (hence no timer) is registered. -/
def SchedInv (s : SchedState) : Prop :=
  s.timers = s.cleanup.toList ∧ (s.lastLen = some 0 → s.cleanup = none)

/-- One render step preserves the interval effect invariant. -/
theorem schedStep_inv (s : SchedState) (ps : List String) (h : SchedInv s) :
    SchedInv (schedStep s ps) := by
  unfold SchedInv schedStep
  by_cases hd : s.lastLen = some ps.length
  · rw [if_pos hd]
    exact h
  · rw [if_neg hd]
    have h1 : s.timers = s.cleanup.toList := h.1
    have hcleared : (match s.cleanup with
        | some i => s.timers.erase i
        | none => s.timers) = [] := by
      rcases hc : s.cleanup with _ | i
      · rw [hc] at h1; simpa using h1
      · rw [hc] at h1
        have h2 : s.timers = [i] := by simpa using h1
        simp [h2]
    by_cases hz : ps.length = 0
    · rw [if_pos hz]
      exact ⟨by simpa using hcleared, fun _ => rfl⟩
    · rw [if_neg hz]
      refine ⟨by simp [hcleared], ?_⟩
      intro hlen
      exact absurd (by simpa using hlen) hz

/-- Runs from an invariant state stay invariant. -/
theorem schedRunFrom_inv :
    ∀ (events : List (List String)) (s : SchedState), SchedInv s →
      SchedInv (events.foldl schedStep s) := by
  intro events
  induction events with
  | nil => intro s h; exact h
  | cons e es ih => intro s h; exact ih _ (schedStep_inv s e h)

/-- Every reachable state of the interval effect satisfies the invariant. -/
theorem schedRun_inv (events : List (List String)) : SchedInv (schedRun events) :=
  schedRunFrom_inv events initSched ⟨rfl, fun h => by cases h⟩

/-- Base purchase record used by concrete instances: BTC bought at 100 USD,
amount 2, no derived fields. -/
def baseRec : PurchaseWithPrice :=
  { id := "1", symbol := "BTC", purchase_date := "2023-01-01", amount := 2,
    purchase_price_usd := some 100 }

/-- Record carrying derived fields from an earlier valuation pass. -/
def staleRec : PurchaseWithPrice :=
  { id := "1", symbol := "BTC", purchase_date := "2023-01-01", amount := 2,
    purchase_price_usd := some 100, currentPrice := some 150,
    profitLoss := some 100, profitLossPercent := some 50 }

/-- Base record whose stored purchase price is exactly 0. -/
def zeroPPRec : PurchaseWithPrice :=
  { id := "2", symbol := "ETH", purchase_date := "2023-01-01", amount := 3,
    purchase_price_usd := some 0 }

/-- Position whose current price field is exactly 0. -/
def zeroCPRec : PurchaseWithPrice :=
  { id := "3", symbol := "SOL", purchase_date := "2023-01-01", amount := 4,
    purchase_price_usd := some 10, currentPrice := some 0 }

/-- Oracle outcome where every spot price request fails. -/
def failOracle : String → SpotResponse := fun _ => SpotResponse.failure

/-- Successful response body quoting bitcoin at 150 USD. -/
def goodBody : String → Option CoinData := fun i =>
  if i = "bitcoin" then some ⟨some 150⟩ else none

/-- Successful response body quoting bitcoin at exactly 0 USD: the usd
field is present and holds 0. -/
def zeroBody : String → Option CoinData := fun i =>
  if i = "bitcoin" then some ⟨some 0⟩ else none

/-- Oracle outcome where only the BTC request succeeds, at 150 USD. -/
def btcOracle : String → SpotResponse := fun s =>
  if s = "BTC" then SpotResponse.ok goodBody else SpotResponse.failure

/-- C1: the valuation pass never fails as a whole: for every input list and
every outcome of the per symbol fetches it produces one output record per
input record, each output computed from its own record and the outcome of
the fetch outcome of its own symbol alone, and the price map answers every input symbol
with exactly the fetch outcome of that symbol (null when it failed), so one
failing symbol never disturbs the other symbols or the pass. -/
theorem c1_pass_total_and_isolated (oracle : String → SpotResponse)
    (ps : List PurchaseWithPrice) :
    fetchCurrentPrices oracle ps
      = ps.map (fun p => valuePosition (fetchPrice oracle p.symbol) p)
    ∧ ∀ p ∈ ps, lookupPrice (priceEntries oracle ps) p.symbol
        = some (fetchPrice oracle p.symbol) :=
  ⟨fetchCurrentPrices_eq_map oracle ps,
   fun p hp => lookupPrice_mem oracle ps p hp⟩

/-- Closed instance of C1 at a one record list whose only fetch fails. -/
theorem c1_pass_total_and_isolated_witness :
    fetchCurrentPrices failOracle [baseRec]
      = [baseRec].map (fun p => valuePosition (fetchPrice failOracle p.symbol) p)
    ∧ lookupPrice (priceEntries failOracle [baseRec]) baseRec.symbol
        = some (fetchPrice failOracle baseRec.symbol) :=
  ⟨(c1_pass_total_and_isolated failOracle [baseRec]).1,
   (c1_pass_total_and_isolated failOracle [baseRec]).2 baseRec (by simp)⟩

/-- C2: when the fetched current price and the stored purchase price are
both known (present and nonzero, the guard of the source), the valuation
pass gives the record profitLoss = (currentPrice - purchasePriceUsd) *
amount and profitLossPercent = (currentPrice - purchasePriceUsd) /
purchasePriceUsd * 100. -/
theorem c2_profit_formulas (oracle : String → SpotResponse)
    (ps : List PurchaseWithPrice) (p : PurchaseWithPrice) (c pp : ℚ)
    (hmem : p ∈ ps) (hc : fetchPrice oracle p.symbol = some c) (hc0 : c ≠ 0)
    (hpp : p.purchase_price_usd = some pp) (hpp0 : pp ≠ 0) :
    valuePosition (fetchPrice oracle p.symbol) p ∈ fetchCurrentPrices oracle ps
    ∧ (valuePosition (fetchPrice oracle p.symbol) p).profitLoss
        = some ((c - pp) * p.amount)
    ∧ (valuePosition (fetchPrice oracle p.symbol) p).profitLossPercent
        = some ((c - pp) / pp * 100) := by
  refine ⟨?_, ?_, ?_⟩
  · rw [fetchCurrentPrices_eq_map]
    exact List.mem_map_of_mem _ hmem
  · rw [hc]; simp [valuePosition, hpp, hc0, hpp0]
  · rw [hc]; simp [valuePosition, hpp, hc0, hpp0]

/-- Closed instance of C2 at purchase price 100, amount 2, current price
150: profitLoss is 100 and profitLossPercent is 50, as the spec states. -/
theorem c2_profit_formulas_witness :
    (valuePosition (fetchPrice btcOracle baseRec.symbol) baseRec).profitLoss
      = some 100
    ∧ (valuePosition (fetchPrice btcOracle baseRec.symbol) baseRec).profitLossPercent
      = some 50 := by
  have h := c2_profit_formulas btcOracle [baseRec] baseRec 150 100 (by simp)
    (by decide) (by norm_num) rfl (by norm_num)
  refine ⟨h.2.1.trans ?_, h.2.2.trans ?_⟩ <;> norm_num [baseRec]

/-- C4 as stated is false: a record that enters the pass already carrying
derived fields and whose fetch fails keeps all three derived fields, they
are not absent. -/
theorem c4_stale_counterexample :
    fetchCurrentPrices failOracle [staleRec] = [staleRec]
    ∧ staleRec.currentPrice = some 150
    ∧ staleRec.profitLoss = some 100
    ∧ staleRec.profitLossPercent = some 50 := by
  refine ⟨by decide, rfl, rfl, rfl⟩

/-- C4 amended: a record whose symbol fetch fails is carried through the
valuation pass unchanged, keeping exactly the fields it entered with, so
derived values from a previous pass persist instead of being cleared. -/
theorem c4_failed_fetch_keeps_record (oracle : String → SpotResponse)
    (ps : List PurchaseWithPrice) (p : PurchaseWithPrice)
    (hmem : p ∈ ps) (hf : fetchPrice oracle p.symbol = none) :
    valuePosition (fetchPrice oracle p.symbol) p = p
    ∧ p ∈ fetchCurrentPrices oracle ps := by
  have h1 : valuePosition (fetchPrice oracle p.symbol) p = p := by
    rw [hf]
    exact valuePosition_none p
  refine ⟨h1, ?_⟩
  rw [fetchCurrentPrices_eq_map]
  have h2 := List.mem_map_of_mem
    (fun q => valuePosition (fetchPrice oracle q.symbol) q) hmem
  simpa [h1] using h2

/-- Closed instance of amended C4: the stale record passes through the
failing pass unchanged. -/
theorem c4_failed_fetch_keeps_record_witness :
    valuePosition (fetchPrice failOracle staleRec.symbol) staleRec = staleRec
    ∧ staleRec ∈ fetchCurrentPrices failOracle [staleRec] :=
  c4_failed_fetch_keeps_record failOracle [staleRec] staleRec (by simp) (by decide)

/-- C5 as stated is false: here the response is successful and the usd
field is present for the resolved id, holding the value 0, yet the call
fails instead of returning 0. -/
theorem c5_zero_counterexample :
    zeroBody (getCoinId "BTC") = some ⟨some 0⟩
    ∧ exceptIsOk (getCurrentPrice "BTC" (SpotResponse.ok zeroBody)) = false := by
  refine ⟨by decide, by decide⟩

/-- C5 amended: the call returns a value exactly when the response is
successful, the body holds the resolved oracle id, the usd field is
present and its value is nonzero; in every other case (non success,
malformed, missing field, or field value 0) it fails. -/
theorem c5_price_characterization (s : String) (r : SpotResponse) (v : ℚ) :
    getCurrentPrice s r = .ok v
      ↔ v ≠ 0 ∧ ∃ body cd, r = SpotResponse.ok body
          ∧ body (getCoinId s) = some cd ∧ cd.usd = some v := by
  constructor
  · intro h
    cases r with
    | failure => simp [getCurrentPrice] at h
    | ok body =>
      cases hb : body (getCoinId s) with
      | none => simp [getCurrentPrice, hb] at h
      | some cd =>
        cases hu : cd.usd with
        | none => simp [getCurrentPrice, hb, hu] at h
        | some u =>
          by_cases hz : u = 0
          · simp [getCurrentPrice, hb, hu, hz] at h
          · simp only [getCurrentPrice, hb, hu, if_neg hz, Except.ok.injEq] at h
            subst h
            exact ⟨hz, body, cd, rfl, hb, hu⟩
  · rintro ⟨hv, body, cd, rfl, hb, hu⟩
    simp [getCurrentPrice, hb, hu, hv]

/-- Closed instance of amended C5: a successful response with a present
nonzero usd field returns that value. -/
theorem c5_price_characterization_witness :
    getCurrentPrice "BTC" (SpotResponse.ok goodBody) = .ok 150 :=
  (c5_price_characterization "BTC" (SpotResponse.ok goodBody) 150).mpr
    ⟨by norm_num, goodBody, ⟨some 150⟩, rfl, by decide, rfl⟩

/-- C10: a price of exactly 0 is treated as unknown throughout: the spot
price call fails even when the usd field is present with value 0, a record
whose stored purchase price is 0 or whose looked up current price is 0
passes through the valuation map unchanged (so a base record gets no
derived fields), and positions whose respective price field is 0
contribute nothing to totalValue or totalCost. -/
theorem c10_zero_price_is_unknown :
    (∀ (s : String) (body : String → Option CoinData) (cd : CoinData),
        body (getCoinId s) = some cd → cd.usd = some 0 →
        exceptIsOk (getCurrentPrice s (SpotResponse.ok body)) = false)
    ∧ (∀ (cp : Option ℚ) (p : PurchaseWithPrice),
        p.purchase_price_usd = some 0 → valuePosition cp p = p)
    ∧ (∀ p : PurchaseWithPrice, valuePosition (some 0) p = p)
    ∧ (∀ (p : PurchaseWithPrice) (ps : List PurchaseWithPrice),
        p.currentPrice = some 0 → totalValue (p :: ps) = totalValue ps)
    ∧ (∀ (p : PurchaseWithPrice) (ps : List PurchaseWithPrice),
        p.purchase_price_usd = some 0 → totalCost (p :: ps) = totalCost ps) := by
  refine ⟨?_, ?_, ?_, ?_, ?_⟩
  · intro s body cd hb hu
    simp [getCurrentPrice, hb, hu, exceptIsOk]
  · intro cp p hpp
    rcases cp with _ | c
    · exact valuePosition_none p
    · simp [valuePosition, hpp]
  · intro p
    rcases h : p.purchase_price_usd with _ | pp <;> simp [valuePosition, h]
  · intro p ps h
    simp [totalValue, sumKnown, h, truthy]
  · intro p ps h
    simp [totalCost, sumKnown, h, truthy]

/-- Closed instance of C10 at concrete records and a concrete zero quote. -/
theorem c10_zero_price_is_unknown_witness :
    exceptIsOk (getCurrentPrice "BTC" (SpotResponse.ok zeroBody)) = false
    ∧ valuePosition (some 150) zeroPPRec = zeroPPRec
    ∧ valuePosition (some 0) baseRec = baseRec
    ∧ totalValue [zeroCPRec] = totalValue []
    ∧ totalCost [zeroPPRec] = totalCost [] :=
  ⟨c10_zero_price_is_unknown.1 "BTC" zeroBody ⟨some 0⟩ (by decide) rfl,
   c10_zero_price_is_unknown.2.1 (some 150) zeroPPRec rfl,
   c10_zero_price_is_unknown.2.2.1 baseRec,
   c10_zero_price_is_unknown.2.2.2.1 zeroCPRec [] rfl,
   c10_zero_price_is_unknown.2.2.2.2 zeroPPRec [] rfl⟩

/-- C3: over lists of valued positions with positive amounts and
nonnegative known purchase prices (the data model of the spec), totalValue
and totalCost are the sums over positions with known respective price
(unknown priced positions are excluded, not counted as zero),
totalProfitLoss is their difference, and totalProfitLossPercent is
totalProfitLoss / totalCost * 100 except that it is exactly 0 when
totalCost = 0. -/
theorem c3_snapshot_formulas (ps : List PurchaseWithPrice)
    (hamount : ∀ p ∈ ps, 0 < p.amount)
    (hpp : ∀ p ∈ ps, ∀ v, p.purchase_price_usd = some v → 0 ≤ v) :
    totalValue ps = knownSum (fun p => p.currentPrice) ps
    ∧ totalCost ps = knownSum (fun p => p.purchase_price_usd) ps
    ∧ totalProfitLoss ps = totalValue ps - totalCost ps
    ∧ totalProfitLossPercent ps
        = (if totalCost ps = 0 then 0
           else totalProfitLoss ps / totalCost ps * 100) := by
  refine ⟨sumKnown_eq _ ps, sumKnown_eq _ ps, rfl, ?_⟩
  have h0 : 0 ≤ totalCost ps := by
    rw [totalCost, sumKnown_eq]
    exact knownSum_nonneg _ ps hamount hpp
  unfold totalProfitLossPercent
  by_cases hz : totalCost ps = 0
  · rw [if_pos hz, if_neg (by rw [hz]; exact lt_irrefl 0)]
  · have hpos : totalCost ps > 0 := lt_of_le_of_ne h0 (Ne.symm hz)
    rw [if_neg hz, if_pos hpos]

/-- Closed instance of C3 at a single fully valued position: totalValue
300, totalCost 200, totalProfitLoss 100, totalProfitLossPercent 50. -/
theorem c3_snapshot_formulas_witness :
    totalValue [staleRec] = knownSum (fun p => p.currentPrice) [staleRec]
    ∧ totalCost [staleRec] = knownSum (fun p => p.purchase_price_usd) [staleRec]
    ∧ totalProfitLoss [staleRec] = totalValue [staleRec] - totalCost [staleRec]
    ∧ totalProfitLossPercent [staleRec]
        = (if totalCost [staleRec] = 0 then 0
           else totalProfitLoss [staleRec] / totalCost [staleRec] * 100) :=
  c3_snapshot_formulas [staleRec]
    (by
      intro p hp
      simp only [List.mem_singleton] at hp
      subst hp
      norm_num [staleRec])
    (by
      intro p hp v hv
      simp only [List.mem_singleton] at hp
      subst hp
      simp only [staleRec] at hv
      have : (100 : ℚ) = v := by simpa using hv
      rw [← this]
      norm_num)

/-- C6: the add purchase workflow validates in short circuit order: an
unsupported symbol fails with the invalid symbol error and zero oracle and
store calls; a failed historical fetch is propagated unchanged with
nothing persisted; a store failure persists nothing; on full success the
record is persisted with the fetched price and only then are the form
cleared and the refresh signal raised. -/
theorem c6_submit_pipeline (symbol : String) (amount : ℚ)
    (hist : Except String ℚ) (db : Option String) :
    (validateSymbol symbol = false →
      handleSubmit symbol amount hist db
        = ⟨0, 0, none, false, false, some (invalidSymbolMsg symbol)⟩)
    ∧ (∀ e, validateSymbol symbol = true → hist = .error e →
      handleSubmit symbol amount hist db = ⟨1, 0, none, false, false, some e⟩)
    ∧ (∀ price e, validateSymbol symbol = true → hist = .ok price →
      db = some e →
      handleSubmit symbol amount hist db = ⟨1, 1, none, false, false, some e⟩)
    ∧ (∀ price, validateSymbol symbol = true → hist = .ok price → db = none →
      handleSubmit symbol amount hist db
        = ⟨1, 1, some ⟨jsToUpper symbol, amount, price⟩, true, true, none⟩)
    ∧ ((handleSubmit symbol amount hist db).formCleared = true
        ↔ validateSymbol symbol = true ∧ (∃ price, hist = .ok price)
          ∧ db = none)
    ∧ (handleSubmit symbol amount hist db).refreshRaised
        = (handleSubmit symbol amount hist db).formCleared := by
  by_cases hv : validateSymbol symbol = true
  · cases hist with
    | error e =>
      rcases db with _ | e2 <;>
        simp [handleSubmit, hv]
    | ok price =>
      rcases db with _ | e2 <;>
        simp [handleSubmit, hv]
  · have hv2 : validateSymbol symbol = false := by
      simpa using hv
    cases hist with
    | error e =>
      rcases db with _ | e2 <;>
        simp [handleSubmit, hv2]
    | ok price =>
      rcases db with _ | e2 <;>
        simp [handleSubmit, hv2]

/-- Closed instance of C6 at the NOTACOIN example of the spec: invalid
symbol, zero oracle and store calls, nothing persisted. -/
theorem c6_submit_pipeline_witness :
    validateSymbol "NOTACOIN" = false
    ∧ handleSubmit "NOTACOIN" 1 (Except.ok 5) none
        = ⟨0, 0, none, false, false, some (invalidSymbolMsg "NOTACOIN")⟩ :=
  ⟨by decide,
   (c6_submit_pipeline "NOTACOIN" 1 (Except.ok 5) none).1 (by decide)⟩

/-- C7: deleting a record id that occurs once in the displayed list leaves,
on store success, exactly the other records in their order, computed from
the previous list alone; on store failure the displayed list is unchanged
and the error is surfaced. -/
theorem c7_delete_frame (l1 l2 : List PurchaseWithPrice)
    (p : PurchaseWithPrice)
    (hnodup : ((l1 ++ p :: l2).map (fun q => q.id)).Nodup) :
    handleDelete true none (l1 ++ p :: l2) p.id = (l1 ++ l2, none)
    ∧ ∀ e, handleDelete true (some e) (l1 ++ p :: l2) p.id
        = (l1 ++ p :: l2, some e) := by
  constructor
  · have hmap : ((l1.map (fun q => q.id)) ++ p.id :: (l2.map (fun q => q.id))).Nodup := by
      simpa using hnodup
    rcases List.nodup_append.mp hmap with ⟨h1, h2, hdisj⟩
    have hnot2 : p.id ∉ l2.map (fun q => q.id) := (List.nodup_cons.mp h2).1
    have hnot1 : p.id ∉ l1.map (fun q => q.id) := by
      intro hin
      exact hdisj hin (List.mem_cons_self _ _)
    have hf1 : l1.filter (fun q => q.id != p.id) = l1 := by
      rw [List.filter_eq_self]
      intro q hq
      simp only [bne_iff_ne, ne_eq, decide_eq_true_eq]
      intro heq
      exact hnot1 (heq ▸ List.mem_map_of_mem (fun q => q.id) hq)
    have hf2 : l2.filter (fun q => q.id != p.id) = l2 := by
      rw [List.filter_eq_self]
      intro q hq
      simp only [bne_iff_ne, ne_eq, decide_eq_true_eq]
      intro heq
      exact hnot2 (heq ▸ List.mem_map_of_mem (fun q => q.id) hq)
    simp [handleDelete, List.filter_append, List.filter_cons, hf1, hf2]
  · intro e
    simp [handleDelete]

/-- Closed instance of C7 at a two record list. -/
theorem c7_delete_frame_witness :
    (([zeroPPRec] ++ baseRec :: []).map (fun q => q.id)).Nodup
    ∧ handleDelete true none ([zeroPPRec] ++ baseRec :: []) baseRec.id
        = ([zeroPPRec] ++ [], none)
    ∧ handleDelete true (some "boom") ([zeroPPRec] ++ baseRec :: []) baseRec.id
        = ([zeroPPRec] ++ baseRec :: [], some "boom") :=
  ⟨by decide,
   (c7_delete_frame [zeroPPRec] [] baseRec (by decide)).1,
   (c7_delete_frame [zeroPPRec] [] baseRec (by decide)).2 "boom"⟩

/-- C8: the empty query returns the empty sequence, every query returns at
most 5 entries, and every returned entry contains the query case
insensitively in its symbol or its display name. -/
theorem c8_search_contract :
    searchCryptos "" = []
    ∧ (∀ query, (searchCryptos query).length ≤ 5)
    ∧ ∀ query e, e ∈ searchCryptos query →
        (jsToUpper query).toList <:+: (jsToUpper e.symbol).toList
        ∨ (jsToUpper query).toList <:+: (jsToUpper e.name).toList := by
  refine ⟨rfl, ?_, ?_⟩
  · intro query
    unfold searchCryptos
    by_cases h : query = ""
    · simp [h]
    · rw [if_neg h, List.length_take]
      exact min_le_left _ _
  · intro query e he
    unfold searchCryptos at he
    by_cases h : query = ""
    · rw [if_pos h] at he
      cases he
    · rw [if_neg h] at he
      have he2 := List.take_subset 5 _ he
      have hp := (List.mem_filter.mp he2).2
      rcases Bool.or_eq_true_iff.mp hp with hs | hn
      · exact Or.inl (of_decide_eq_true hs)
      · exact Or.inr (of_decide_eq_true hn)

/-- Closed instance of C8: the query btc returns the Bitcoin entry, whose
upper cased symbol contains the upper cased query. -/
theorem c8_search_contract_witness :
    (⟨"BTC", "bitcoin", "Bitcoin"⟩ : CryptoEntry) ∈ searchCryptos "btc"
    ∧ ((jsToUpper "btc").toList <:+: (jsToUpper "BTC").toList
       ∨ (jsToUpper "btc").toList <:+: (jsToUpper "Bitcoin").toList) :=
  ⟨by decide,
   c8_search_contract.2.2 "btc" ⟨"BTC", "bitcoin", "Bitcoin"⟩ (by decide)⟩

/-- C9 as stated is false: a render that changes the record set identity
but not its length leaves the effect state untouched, the armed timer is
the same one, it is neither torn down nor recreated. -/
theorem c9_identity_counterexample :
    schedRun [["a"], ["b"]] = schedRun [["a"]]
    ∧ (schedRun [["a"]]).timers = [0] := by
  refine ⟨by decide, by decide⟩

/-- C9 amended: at every reachable state of the interval effect at most one
timer is armed; after the record set becomes empty no timer is armed; and
the timer is torn down and recreated exactly on renders that change the
record set length, an identity change with equal length changes nothing. -/
theorem c9_scheduler_invariants (events : List (List String)) :
    (schedRun events).timers.length ≤ 1
    ∧ ((schedRun events).lastLen = some 0 → (schedRun events).timers = [])
    ∧ (∀ ps : List String, (schedRun events).lastLen = some ps.length →
        schedStep (schedRun events) ps = schedRun events)
    ∧ ∀ ps : List String, (schedRun events).lastLen ≠ some ps.length →
        ((ps.length = 0 → (schedStep (schedRun events) ps).timers = [])
         ∧ (ps.length ≠ 0 →
            (schedStep (schedRun events) ps).timers
              = [(schedRun events).nextId])) := by
  have hinv := schedRun_inv events
  have h1 := hinv.1
  have hcleared : (match (schedRun events).cleanup with
      | some i => (schedRun events).timers.erase i
      | none => (schedRun events).timers) = [] := by
    rcases hc : (schedRun events).cleanup with _ | i
    · rw [hc] at h1; simpa using h1
    · rw [hc] at h1
      have h2 : (schedRun events).timers = [i] := by simpa using h1
      simp [h2]
  refine ⟨?_, ?_, ?_, ?_⟩
  · rw [h1]
    rcases (schedRun events).cleanup with _ | i <;> simp
  · intro h0
    rw [h1, hinv.2 h0]
    rfl
  · intro ps hlen
    unfold schedStep
    rw [if_pos hlen]
  · intro ps hlen
    unfold schedStep
    rw [if_neg hlen]
    constructor
    · intro hz
      rw [if_pos hz]
      simpa using hcleared
    · intro hz
      rw [if_neg hz]
      simp [hcleared]

/-- Closed instance of amended C9 after one nonempty render: one timer is
armed, and a render with an empty list clears it without rearming. -/
theorem c9_scheduler_invariants_witness :
    (schedRun [["a"]]).timers.length ≤ 1
    ∧ (schedRun [["a"]]).lastLen ≠ some (List.length ([] : List String))
    ∧ (schedStep (schedRun [["a"]]) []).timers = [] :=
  ⟨(c9_scheduler_invariants [["a"]]).1,
   by decide,
   ((c9_scheduler_invariants [["a"]]).2.2.2 [] (by decide)).1 rfl⟩
